import Mathlib

/-!
Verification development for the DragonJewelryBox repository
(`export_3mf.py`, `convert_step_to_3mf.py`, `modify_axis_models.py`).

The relevant Python functions are embedded shallowly:

* `parse_binary_stl` — the binary STL decoder shared (verbatim) by
  `export_3mf._parse_binary_stl` and `convert_step_to_3mf.parse_binary_stl`.
  A buffer is a `List Nat` of bytes; IEEE-754 binary32 fields are decoded
  exactly into `ℚ`; Python's `round(x, 6)` becomes exact round-half-to-even
  to six decimal digits over `ℚ`.  NaN payloads are tagged with their
  (record, coordinate) position so that, as in CPython, no two distinct NaN
  occurrences compare equal.
* the material lookup, XML-document construction and archive layout of
  `export_3mf.create_3mf`;
* the side-by-side placement and plate-width check of
  `convert_step_to_3mf.steps_to_combined_3mf`;
* the Python `dict.update` settings merge of
  `modify_axis_models.export_combined_3mf`.
-/

set_option maxRecDepth 10000

namespace DragonJewelryBox

/-! ### Bytes and 32-bit little-endian words -/

/-- Byte `i` of a buffer (all call sites are guarded by length checks,
mirroring `struct.unpack_from` raising on a short buffer). -/
def getByte (data : List Nat) (i : Nat) : Nat := data.getD i 0

/-- Little-endian unsigned 32-bit word starting at byte offset `i`,
as read by `struct.unpack_from('<I', data, i)`. -/
def readWord32 (data : List Nat) (i : Nat) : Nat :=
  getByte data i + 256 * getByte data (i + 1) + 65536 * getByte data (i + 2)
    + 16777216 * getByte data (i + 3)

/-! ### IEEE-754 binary32 decoding and Python `round(x, 6)` -/

/-- The value of a 4-byte float field before rounding: a finite value is the
exact rational `num / 2^150`, stored by its integer numerator; infinities
carry their sign; a NaN carries the (record, coordinate) position it was
read at, since in CPython two NaNs produced by distinct `struct.unpack_from`
calls are distinct objects and never compare equal. -/
inductive RawF where
  | fin (num : ℤ)
  | inf (neg : Bool)
  | nan (tag : Nat × Nat)
deriving DecidableEq, Repr

/-- A float value after `round(·, 6)`, as it behaves as a dictionary key: a
finite value is an exact multiple of `10⁻⁶`, stored by its integer count of
micro-units. -/
inductive FVal where
  | fin (micro : ℤ)
  | inf (neg : Bool)
  | nan (tag : Nat × Nat)
deriving DecidableEq, Repr

/-- Exact decoding of an IEEE-754 binary32 word `w < 2^32` read at position
`tag` (used only to distinguish NaN occurrences).  A normalized float is
`±(2^23+m)·2^(e-150)`, a subnormal `±m·2^(-149)`; both are returned as the
numerator of the value over the common denominator `2^150`. -/
def decodeF32 (w : Nat) (tag : Nat × Nat) : RawF :=
  let s : Nat := w / 2 ^ 31 % 2
  let e : Nat := w / 2 ^ 23 % 2 ^ 8
  let m : Nat := w % 2 ^ 23
  if e = 255 then
    if m = 0 then .inf (s = 1) else .nan tag
  else
    let mag : ℤ := if e = 0 then 2 * m else (2 ^ 23 + m) * 2 ^ e
    .fin (if s = 1 then -mag else mag)

/-- Round `p / d` (with `d > 0`) to the nearest integer, ties to even:
CPython's rounding mode for `round`. -/
def roundHalfEven (p d : ℤ) : ℤ :=
  let f := Int.fdiv p d
  let r := p - f * d
  if 2 * r < d then f
  else if d < 2 * r then f + 1
  else if f % 2 = 0 then f else f + 1

/-- Python `round(x, 6)` on the exact value `num / 2^150`: the result is
`round6 num` micro-units, i.e. the rational `round6 num / 10^6`. -/
def round6 (num : ℤ) : ℤ := roundHalfEven (num * 1000000) (2 ^ 150)

/-- `round(x, 6)` lifted to float values: finite values are rounded, an
infinity or NaN is returned unchanged (CPython `round(inf, 6) = inf`,
`round(nan, 6) = nan`). -/
def roundF : RawF → FVal
  | .fin n => .fin (round6 n)
  | .inf b => .inf b
  | .nan t => .nan t

/-! ### The decoder state -/

/-- A deduplication key: one vertex's three rounded coordinates. -/
abbrev Key := FVal × FVal × FVal

/-- An output triangle: three indices into the vertex list. -/
abbrev Tri := Nat × Nat × Nat

/-- The decoded mesh: deduplicated vertex list and index triangles. -/
structure Mesh where
  vertices : List Key
  triangles : List Tri
deriving DecidableEq, Repr

/-- The loop state of `parse_binary_stl`: the `vertices` list, the
`vertex_map` dict (an insertion-ordered association list) and the
`triangles` list. -/
structure PState where
  vertices : List Key
  vmap : List (Key × Nat)
  triangles : List Tri
deriving DecidableEq, Repr

/-- Dictionary lookup: first entry with the given key. -/
def lookupK (k : Key) : List (Key × Nat) → Option Nat
  | [] => none
  | (k', i) :: rest => if k' = k then some i else lookupK k rest

/-- One vertex of one record:
```
if key not in vertex_map:
    vertex_map[key] = len(vertices)
    vertices.append(key)
tri_indices.append(vertex_map[key])
``` -/
def addVertex (st : PState) (k : Key) : PState × Nat :=
  match lookupK k st.vmap with
  | some i => (st, i)
  | none =>
      (⟨st.vertices ++ [k], st.vmap ++ [(k, st.vertices.length)], st.triangles⟩,
       st.vertices.length)

/-- Coordinate `c` (0, 1 or 2) of vertex `vi` (0, 1 or 2) of record `r`:
float field `3 + vi*3 + c` of the record, i.e. the word at byte offset
`84 + 50*r + 4*(3 + vi*3 + c)`, decoded and rounded to six decimals. -/
def recordCoord (data : List Nat) (r vi c : Nat) : FVal :=
  roundF (decodeF32 (readWord32 data (84 + 50 * r + 12 + 12 * vi + 4 * c))
    (r, 3 * vi + c))

/-- The dedup key of vertex `vi` of record `r`. -/
def recordKey (data : List Nat) (r vi : Nat) : Key :=
  (recordCoord data r vi 0, recordCoord data r vi 1, recordCoord data r vi 2)

/-- One iteration of the record loop of `parse_binary_stl`: deduplicate the
record's three vertices in order and append the index triangle. -/
def stepRecord (data : List Nat) (r : Nat) (st : PState) : PState :=
  let a1 := addVertex st (recordKey data r 0)
  let a2 := addVertex a1.1 (recordKey data r 1)
  let a3 := addVertex a2.1 (recordKey data r 2)
  ⟨a3.1.vertices, a3.1.vmap, a3.1.triangles ++ [(a1.2, a2.2, a3.2)]⟩

/-- Decoder failure: `struct.unpack_from` raising `struct.error` on a buffer
too short for the requested field. -/
inductive StlError where
  | shortBuffer
deriving DecidableEq, Repr

/-- The record loop: `r` is the index of the next record, the first argument
of recursion the number of records still to read.  Each iteration first
demands the full 50-byte record (`struct.unpack_from('<12fH', data, offset)`),
then processes it. -/
def parseLoop (data : List Nat) : Nat → Nat → PState → Except StlError PState
  | _, 0, st => .ok st
  | r, k + 1, st =>
      if 84 + 50 * r + 50 ≤ data.length then
        parseLoop data (r + 1) k (stepRecord data r st)
      else .error .shortBuffer

/-- `parse_binary_stl(data)` (identical in `export_3mf.py` and
`convert_step_to_3mf.py`): read the declared triangle count at offset 80,
then decode that many 50-byte records, deduplicating vertices. -/
def parse_binary_stl (data : List Nat) : Except StlError Mesh :=
  if 80 + 4 ≤ data.length then
    (parseLoop data 0 (readWord32 data 80) ⟨[], [], []⟩).map
      (fun st => ⟨st.vertices, st.triangles⟩)
  else .error .shortBuffer

/-- The declared triangle count: the little-endian 32-bit field at offset 80. -/
def declaredCount (data : List Nat) : Nat := readWord32 data 80

deriving instance DecidableEq for Except

/-- Component `vi` (0, 1 or 2) of an output triangle. -/
def triIdx (t : Tri) (vi : Nat) : Nat :=
  if vi = 0 then t.1 else if vi = 1 then t.2.1 else t.2.2

/-! ### `export_3mf.create_3mf`: materials, model XML document, archive -/

/-- The `COLORS` palette of `export_3mf.py`, in source insertion order. -/
def COLORS : List (String × String) :=
  [("red", "#CC2222CC"), ("yellow", "#CCAA22CC"), ("black", "#222222CC"),
   ("clear", "#EEEEEEBB"), ("asagf", "#333333FF")]

/-- The `FILAMENT_SLOTS` dict of `export_3mf.py`. -/
def FILAMENT_SLOTS : List (String × Nat) :=
  [("red", 1), ("yellow", 2), ("black", 3), ("clear", 4), ("asagf", 0)]

/-- Python-dict lookup for string keys: first entry with the given key. -/
def lookupS {β : Type} (k : String) : List (String × β) → Option β
  | [] => none
  | (k', v) :: rest => if k' = k then some v else lookupS k rest

/-- `[(ks 0, n), (ks 1, n+1), ...]` — the dict built by
`for idx, (cname, cval) in enumerate(COLORS.items()): color_to_matidx[cname] = idx`. -/
def enumS : List String → Nat → List (String × Nat)
  | [], _ => []
  | s :: ss, n => (s, n) :: enumS ss (n + 1)

/-- The `color_to_matidx` dict of `create_3mf`. -/
def color_to_matidx : List (String × Nat) := enumS (COLORS.map Prod.fst) 0

/-- `mat_idx = color_to_matidx.get(color_name, 0)` — the material index a
color tag resolves to, with silent fallback to 0. -/
def matIdxFor (color_name : String) : Nat := (lookupS color_name color_to_matidx).getD 0

/-- One `<object>` element of the model XML built by `create_3mf`: id,
material `pindex`, and the mesh written as `<vertex>`/`<triangle>` children
in list order. -/
structure XObject where
  objId : Nat
  pindex : Nat
  vertices : List Key
  triangles : List Tri
deriving DecidableEq, Repr

/-- The model XML document of `create_3mf`, with children in insertion
order: metadata title, `<object>` resources, then build items. -/
structure ModelDoc where
  title : String
  objects : List XObject
  buildItems : List Nat
deriving DecidableEq, Repr

/-- The `3D/3dmodel.model` document: one object per color body, ids starting
at 2 (id 1 is the base-materials group), mesh data copied in order, build
items referencing every object in the same order. -/
def createModelDoc (title : String) (colorBodies : List (String × Mesh)) : ModelDoc :=
  let objs := colorBodies.enum.map fun p =>
    XObject.mk (p.1 + 2) (matIdxFor p.2.1) p.2.2.vertices p.2.2.triangles
  ModelDoc.mk title objs (objs.map XObject.objId)

/-- An archive member: the structured model document, or a plain text file. -/
inductive ZEntry (α : Type) where
  | model (doc : α)
  | text (s : String)
deriving DecidableEq, Repr

/-- `'\n'.join(f"{key} = {val}" for ...)` — `Metadata/project_settings.config`. -/
def renderSettings (settings : List (String × String)) : String :=
  String.intercalate "\n" (settings.map fun kv => kv.1 ++ " = " ++ kv.2)

/-- `_build_plate_config`: the per-object extruder assignment lines.  Slot
lookup is `FILAMENT_SLOTS.get(color_name, 0)`; the written extruder is
`slot + 1`. -/
def build_plate_config (objectIds : List (Nat × String)) : String :=
  let objLines := objectIds.flatMap fun p =>
    let idStr := toString p.1
    let slotStr := toString ((lookupS p.2 FILAMENT_SLOTS).getD 0 + 1)
    ["  <object id=\x22" ++ idStr ++ "\x22>",
     "    <metadata key=\x22extruder\x22 value=\x22" ++ slotStr ++ "\x22/>",
     "    <metadata key=\x22name\x22 value=\x22" ++ p.2 ++ "\x22/>",
     "  </object>"]
  let plateLines := objectIds.map fun p =>
    "    <metadata key=\x22object_id\x22 value=\x22" ++ toString p.1 ++ "\x22/>"
  String.intercalate "\n"
    (["<?xml version=\x221.0\x22 encoding=\x22UTF-8\x22?>", "<config>"] ++ objLines ++
      ["  <plate>", "    <metadata key=\x22plater_id\x22 value=\x221\x22/>",
       "    <metadata key=\x22plater_name\x22 value=\x22Plate 1\x22/>"] ++ plateLines ++
      ["  </plate>", "</config>"])

/-- The five members `create_3mf` writes into the zip, in write order.
Every step is total: the archive is opened directly at the destination path
(`zipfile.ZipFile(filepath, 'w')`) and each member written unconditionally. -/
def create_3mf_pkg (title : String) (colorBodies : List (String × Mesh))
    (orcaSettings : List (String × String)) : List (String × ZEntry ModelDoc) :=
  let objectIds := colorBodies.enum.map fun p => (p.1 + 2, p.2.1)
  [("[Content_Types].xml", .text "content-types"),
   ("_rels/.rels", .text "rels"),
   ("3D/3dmodel.model", .model (createModelDoc title colorBodies)),
   ("Metadata/project_settings.config", .text (renderSettings orcaSettings)),
   ("Metadata/plate_1.config", .text (build_plate_config objectIds))]

/-! ### `convert_step_to_3mf.steps_to_combined_3mf`: placement and plate check -/

/-- The bounding box of an imported STEP shape, with the attributes the
placement code reads (`bb.xmin`, `bb.ymin`, `bb.zmin`, `bb.xlen`, ...). -/
structure BBox where
  xmin : ℚ
  ymin : ℚ
  zmin : ℚ
  xlen : ℚ
  ylen : ℚ
  zlen : ℚ
deriving DecidableEq, Repr, Inhabited

/-- The per-object translation offsets produced by the placement loop:
`offset_x = cursor_x - bb.xmin`, `offset_y = -bb.ymin`, `offset_z = -bb.zmin`,
with `cursor_x += bb.xlen + spacing` after each object. -/
def placeLoopC (spacing : ℚ) : ℚ → List BBox → List (ℚ × ℚ × ℚ)
  | _, [] => []
  | cur, bb :: rest =>
      (cur - bb.xmin, -bb.ymin, -bb.zmin) :: placeLoopC spacing (cur + bb.xlen + spacing) rest

/-- The value of `cursor_x` after the placement loop. -/
def finalCursor (spacing : ℚ) : ℚ → List BBox → ℚ
  | cur, [] => cur
  | cur, bb :: rest => finalCursor spacing (cur + bb.xlen + spacing) rest

/-- `∑_{j<i} (xlen j + spacing)`: the cursor advance contributed by the
first `i` objects. -/
def prefixWidth (spacing : ℚ) : List BBox → Nat → ℚ
  | _, 0 => 0
  | [], _ + 1 => 0
  | bb :: rest, i + 1 => bb.xlen + spacing + prefixWidth spacing rest i

/-- Offset `i` of a placement list. -/
def offAt (os : List (ℚ × ℚ × ℚ)) (i : Nat) : ℚ × ℚ × ℚ := os.getD i (0, 0, 0)

/-- Bounding box `i` of an input list. -/
def bbAt (bbs : List BBox) (i : Nat) : BBox := bbs.getD i default

/-- The model document of the combined 3MF: mesh resources with ids starting
at 1, and build items carrying the translation transforms, in input order. -/
structure CombinedDoc where
  title : String
  objects : List (Nat × Mesh)
  items : List (Nat × (ℚ × ℚ × ℚ))
deriving DecidableEq, Repr

/-- The result of `steps_to_combined_3mf` on already-imported shapes:
the model document, the combined plate width `cursor_x - spacing`, whether
the over-270 mm warning is printed, and the archive members written.  The
width check is advisory only — the function always proceeds to write the
archive. -/
structure Combined3mf where
  doc : CombinedDoc
  totalWidth : ℚ
  overflowWarning : Bool
  archive : List (String × ZEntry CombinedDoc)
deriving DecidableEq, Repr

/-- `steps_to_combined_3mf`, embedded over the imported shapes' bounding
boxes and tessellated meshes (`step_entries` elements are
`(part_name, bounding_box, mesh)`). -/
def steps_to_combined_3mf (entries : List (String × BBox × Mesh))
    (spacing : ℚ) (title : String) : Combined3mf :=
  let bbs := entries.map fun e => e.2.1
  let offsets := placeLoopC spacing 0 bbs
  let objs := entries.enum.map fun p => (p.1 + 1, p.2.2.2)
  let items := (entries.enum.map fun p => p.1 + 1).zip offsets
  let doc := CombinedDoc.mk title objs items
  let totalWidth := finalCursor spacing 0 bbs - spacing
  { doc := doc
    totalWidth := totalWidth
    overflowWarning := decide (totalWidth > 270)
    archive :=
      [("[Content_Types].xml", .text "content-types"),
       ("_rels/.rels", .text "rels"),
       ("3D/3dmodel.model", .model doc),
       ("Metadata/project_settings.config", .text "settings"),
       ("Metadata/plate_1.config", .text "plate")] }

/-! ### `modify_axis_models.export_combined_3mf`: settings merge -/

/-- `d[k] = v` on a Python dict: replace the value of an existing key in
place, else append the new key at the end. -/
def dictInsert : List (String × String) → String → String → List (String × String)
  | [], k, v => [(k, v)]
  | (k', v') :: rest, k, v =>
      if k' = k then (k', v) :: rest else (k', v') :: dictInsert rest k v

/-- `d.update(o)`: insert every key/value pair of the override in order. -/
def dictUpdate (d o : List (String × String)) : List (String × String) :=
  o.foldl (fun acc kv => dictInsert acc kv.1 kv.2) d

/-- The settings merge of `export_combined_3mf`: the baseline dict updated
by each override dict in turn (`settings.update(ORCA_SETTINGS_ASAGF)`, then
`settings.update(settings_override)`). -/
def mergeSettings (baseline : List (String × String))
    (overrides : List (List (String × String))) : List (String × String) :=
  overrides.foldl dictUpdate baseline

/-! ### Concrete demonstration inputs -/

/-- The four bytes of `0.0f`. -/
def zeroF32 : List Nat := [0, 0, 0, 0]

/-- The four bytes of `1.0f` (`0x3F800000`, little-endian). -/
def oneF32 : List Nat := [0, 0, 128, 63]

/-- A well-formed binary STL buffer: 80-byte header, triangle count 2, and
two triangle records sharing all three vertices
`(0,0,0)`, `(1,0,0)`, `(0,1,0)` (deliberately repeated coordinates). -/
def demoStl : List Nat :=
  List.replicate 80 0 ++ [2, 0, 0, 0] ++
  (zeroF32 ++ zeroF32 ++ zeroF32) ++
  (zeroF32 ++ zeroF32 ++ zeroF32) ++
  (oneF32 ++ zeroF32 ++ zeroF32) ++
  (zeroF32 ++ oneF32 ++ zeroF32) ++ [0, 0] ++
  (zeroF32 ++ zeroF32 ++ zeroF32) ++
  (oneF32 ++ zeroF32 ++ zeroF32) ++
  (zeroF32 ++ oneF32 ++ zeroF32) ++
  (zeroF32 ++ zeroF32 ++ zeroF32) ++ [0, 0]

/-- The mesh the decoder produces from `demoStl`: each shared coordinate
appears once (in micro-units: `1.0` is `10^6`), and the second triangle
reuses the indices of the first. -/
def demoMesh : Mesh :=
  ⟨[(.fin 0, .fin 0, .fin 0), (.fin 1000000, .fin 0, .fin 0),
    (.fin 0, .fin 1000000, .fin 0)],
   [(0, 1, 2), (1, 2, 0)]⟩

/-- A mesh with zero vertices. -/
def emptyMesh : Mesh := ⟨[], []⟩

/-- Bounding boxes with x-extents 10, 20 and 30 (and nonzero minima, so the
offsets are exercised). -/
def demoBoxes : List BBox :=
  [⟨3, 4, 5, 10, 6, 7⟩, ⟨-2, 1, 0, 20, 8, 9⟩, ⟨100, -5, 2, 30, 11, 12⟩]

/-- Entries whose extents-plus-spacing total 300 mm: extents 100, 100 and 80
with 10 mm spacing. -/
def overflowEntries : List (String × BBox × Mesh) :=
  [("a", ⟨0, 0, 0, 100, 1, 1⟩, demoMesh),
   ("b", ⟨0, 0, 0, 100, 1, 1⟩, demoMesh),
   ("c", ⟨0, 0, 0, 80, 1, 1⟩, demoMesh)]

/-! ### Decoder invariants -/

/-- Index of the first occurrence of `k` in a vertex list (the index the
`vertex_map` dict assigns to `k`). -/
def idxOfK (k : Key) : List Key → Nat
  | [] => 0
  | v :: vs => if v = k then 0 else idxOfK k vs + 1

/-- The association list `[(vs 0, n), (vs 1, n+1), ...]`: the shape of
`vertex_map` when the vertices were inserted in order starting at index `n`. -/
def enumAssoc : List Key → Nat → List (Key × Nat)
  | [], _ => []
  | v :: vs, n => (v, n) :: enumAssoc vs (n + 1)

/-- Triangle `i` of a triangle list (out-of-range reads are never used). -/
def triAt (ts : List Tri) (i : Nat) : Tri := ts.getD i (0, 0, 0)

/-- The `vertex_map` dict is exactly the vertex list enumerated in insertion
order, and the vertex list has no duplicates. -/
def goodState (st : PState) : Prop :=
  st.vmap = enumAssoc st.vertices 0 ∧ st.vertices.Nodup

theorem lookupK_enumAssoc (k : Key) :
    ∀ (vs : List Key) (n : Nat),
      lookupK k (enumAssoc vs n) =
        if k ∈ vs then some (n + idxOfK k vs) else none := by
  intro vs
  induction vs with
  | nil => intro n; simp [enumAssoc, lookupK]
  | cons v rest ih =>
      intro n
      by_cases hv : v = k
      · subst hv
        simp [enumAssoc, lookupK, idxOfK]
      · simp only [enumAssoc, lookupK, if_neg hv, ih (n + 1), List.mem_cons]
        by_cases hk : k ∈ rest
        · simp [hk, idxOfK, if_neg hv, Nat.add_assoc, Nat.add_comm 1]
        · have hkv : k ≠ v := fun h => hv h.symm
          simp [hk, hkv]

theorem idxOfK_lt {k : Key} : ∀ {vs : List Key}, k ∈ vs → idxOfK k vs < vs.length := by
  intro vs
  induction vs with
  | nil => intro h; cases h
  | cons v rest ih =>
      intro h
      by_cases hv : v = k
      · simp [idxOfK, hv]
      · have hk : k ∈ rest := by
          rcases List.mem_cons.mp h with rfl | h'
          · exact absurd rfl hv
          · exact h'
        simpa [idxOfK, hv, Nat.succ_lt_succ_iff] using ih hk

theorem idxOfK_append_of_mem {k : Key} :
    ∀ {vs : List Key} (ws : List Key), k ∈ vs → idxOfK k (vs ++ ws) = idxOfK k vs := by
  intro vs
  induction vs with
  | nil => intro ws h; cases h
  | cons v rest ih =>
      intro ws h
      by_cases hv : v = k
      · simp [idxOfK, hv]
      · have hk : k ∈ rest := by
          rcases List.mem_cons.mp h with rfl | h'
          · exact absurd rfl hv
          · exact h'
        simp [idxOfK, hv, ih ws hk]

theorem idxOfK_of_pre {k : Key} {vs ws : List Key} (h : vs <+: ws) (hm : k ∈ vs) :
    idxOfK k ws = idxOfK k vs := by
  obtain ⟨t, rfl⟩ := h
  exact idxOfK_append_of_mem t hm

theorem idxOfK_append_self {k : Key} :
    ∀ {vs : List Key}, k ∉ vs → idxOfK k (vs ++ [k]) = vs.length := by
  intro vs
  induction vs with
  | nil => intro _; simp [idxOfK]
  | cons v rest ih =>
      intro h
      have hv : v ≠ k := fun hvk => h (by simp [hvk])
      have hk : k ∉ rest := fun hk => h (List.mem_cons_of_mem _ hk)
      simp [idxOfK, hv, ih hk]

theorem enumAssoc_append :
    ∀ (vs ws : List Key) (n : Nat),
      enumAssoc (vs ++ ws) n = enumAssoc vs n ++ enumAssoc ws (n + vs.length) := by
  intro vs
  induction vs with
  | nil => intro ws n; simp [enumAssoc]
  | cons v rest ih =>
      intro ws n
      simp [enumAssoc, ih ws (n + 1), Nat.add_assoc, Nat.add_comm 1]

theorem triAt_of_pre {ts ts' : List Tri} (h : ts <+: ts') {i : Nat}
    (hi : i < ts.length) : triAt ts' i = triAt ts i := by
  obtain ⟨t, rfl⟩ := h
  exact List.getD_append _ _ _ _ hi

theorem addVertex_spec (st : PState) (k : Key) (h : goodState st) :
    goodState (addVertex st k).1 ∧
    st.vertices <+: (addVertex st k).1.vertices ∧
    (addVertex st k).1.triangles = st.triangles ∧
    k ∈ (addVertex st k).1.vertices ∧
    (addVertex st k).2 = idxOfK k (addVertex st k).1.vertices := by
  obtain ⟨hm, hnd⟩ := h
  by_cases hk : k ∈ st.vertices
  · have hlook : lookupK k st.vmap = some (idxOfK k st.vertices) := by
      rw [hm, lookupK_enumAssoc, if_pos hk, Nat.zero_add]
    have hav : addVertex st k = (st, idxOfK k st.vertices) := by
      unfold addVertex; rw [hlook]
    rw [hav]
    exact ⟨⟨hm, hnd⟩, List.prefix_refl _, rfl, hk, rfl⟩
  · have hlook : lookupK k st.vmap = none := by
      rw [hm, lookupK_enumAssoc, if_neg hk]
    have hav : addVertex st k =
        (⟨st.vertices ++ [k], st.vmap ++ [(k, st.vertices.length)], st.triangles⟩,
         st.vertices.length) := by
      unfold addVertex; rw [hlook]
    rw [hav]
    refine ⟨⟨?_, ?_⟩, ⟨[k], rfl⟩, rfl, by simp, (idxOfK_append_self hk).symm⟩
    · show st.vmap ++ [(k, st.vertices.length)] = enumAssoc (st.vertices ++ [k]) 0
      rw [enumAssoc_append, hm, Nat.zero_add]
      rfl
    · exact hnd.append (List.nodup_singleton k) (by simpa using hk)

theorem stepRecord_spec (data : List Nat) (r : Nat) (st : PState)
    (h : goodState st) :
    goodState (stepRecord data r st) ∧
    st.vertices <+: (stepRecord data r st).vertices ∧
    (stepRecord data r st).triangles =
      st.triangles ++
        [(idxOfK (recordKey data r 0) (stepRecord data r st).vertices,
          idxOfK (recordKey data r 1) (stepRecord data r st).vertices,
          idxOfK (recordKey data r 2) (stepRecord data r st).vertices)] ∧
    recordKey data r 0 ∈ (stepRecord data r st).vertices ∧
    recordKey data r 1 ∈ (stepRecord data r st).vertices ∧
    recordKey data r 2 ∈ (stepRecord data r st).vertices := by
  obtain ⟨h1g, h1p, h1t, h1m, h1i⟩ := addVertex_spec st (recordKey data r 0) h
  obtain ⟨h2g, h2p, h2t, h2m, h2i⟩ :=
    addVertex_spec (addVertex st (recordKey data r 0)).1 (recordKey data r 1) h1g
  obtain ⟨h3g, h3p, h3t, h3m, h3i⟩ :=
    addVertex_spec ((addVertex (addVertex st (recordKey data r 0)).1
      (recordKey data r 1)).1) (recordKey data r 2) h2g
  have hverts : (stepRecord data r st).vertices =
      ((addVertex ((addVertex (addVertex st (recordKey data r 0)).1
        (recordKey data r 1)).1) (recordKey data r 2)).1).vertices := rfl
  have hp13 : (addVertex st (recordKey data r 0)).1.vertices <+:
      (stepRecord data r st).vertices := by
    rw [hverts]; exact h2p.trans h3p
  have hp23 : ((addVertex (addVertex st (recordKey data r 0)).1
      (recordKey data r 1)).1).vertices <+: (stepRecord data r st).vertices := by
    rw [hverts]; exact h3p
  have e1 : (addVertex st (recordKey data r 0)).2 =
      idxOfK (recordKey data r 0) (stepRecord data r st).vertices :=
    h1i.trans (idxOfK_of_pre hp13 h1m).symm
  have e2 : (addVertex (addVertex st (recordKey data r 0)).1 (recordKey data r 1)).2 =
      idxOfK (recordKey data r 1) (stepRecord data r st).vertices :=
    h2i.trans (idxOfK_of_pre hp23 h2m).symm
  have e3 : (addVertex ((addVertex (addVertex st (recordKey data r 0)).1
      (recordKey data r 1)).1) (recordKey data r 2)).2 =
      idxOfK (recordKey data r 2) (stepRecord data r st).vertices := by
    rw [h3i, hverts]
  refine ⟨h3g, ?_, ?_, ?_, ?_, ?_⟩
  · exact h1p.trans (h2p.trans h3p)
  · show ((addVertex ((addVertex (addVertex st (recordKey data r 0)).1
        (recordKey data r 1)).1) (recordKey data r 2)).1).triangles ++ _ = _
    rw [h3t, h2t, h1t, e1, e2, e3]
  · exact hp13.subset h1m
  · exact hp23.subset h2m
  · rw [hverts]; exact h3m

theorem parseLoop_ok_spec (data : List Nat) :
    ∀ (k r : Nat) (st st' : PState), goodState st →
      parseLoop data r k st = .ok st' →
      goodState st' ∧ st.vertices <+: st'.vertices ∧
      st.triangles <+: st'.triangles ∧
      st'.triangles.length = st.triangles.length + k ∧
      ∀ j, j < k →
        triAt st'.triangles (st.triangles.length + j) =
          (idxOfK (recordKey data (r + j) 0) st'.vertices,
           idxOfK (recordKey data (r + j) 1) st'.vertices,
           idxOfK (recordKey data (r + j) 2) st'.vertices) ∧
        recordKey data (r + j) 0 ∈ st'.vertices ∧
        recordKey data (r + j) 1 ∈ st'.vertices ∧
        recordKey data (r + j) 2 ∈ st'.vertices := by
  intro k
  induction k with
  | zero =>
      intro r st st' h he
      simp only [parseLoop] at he
      cases he
      exact ⟨h, List.prefix_refl _, List.prefix_refl _, rfl,
        fun j hj => absurd hj (Nat.not_lt_zero j)⟩
  | succ n ih =>
      intro r st st' h he
      simp only [parseLoop] at he
      split at he
      · obtain ⟨hsg, hsp, hst, hsm0, hsm1, hsm2⟩ := stepRecord_spec data r st h
        obtain ⟨hg', hp', ht', hl', hj'⟩ := ih (r + 1) (stepRecord data r st) st' hsg he
        have hslen : (stepRecord data r st).triangles.length = st.triangles.length + 1 := by
          rw [hst]; simp
        have hpfull : st.vertices <+: st'.vertices := hsp.trans hp'
        have htfull : st.triangles <+: st'.triangles := by
          refine List.IsPrefix.trans ?_ ht'
          rw [hst]; exact ⟨_, rfl⟩
        refine ⟨hg', hpfull, htfull, by rw [hl', hslen, Nat.add_assoc, Nat.add_comm 1], ?_⟩
        intro j hj
        cases j with
        | zero =>
            have hlt : st.triangles.length < (stepRecord data r st).triangles.length := by
              rw [hslen]; exact Nat.lt_succ_self _
            have hm0 : recordKey data r 0 ∈ st'.vertices := hp'.subset hsm0
            have hm1 : recordKey data r 1 ∈ st'.vertices := hp'.subset hsm1
            have hm2 : recordKey data r 2 ∈ st'.vertices := hp'.subset hsm2
            have hv0 : idxOfK (recordKey data r 0) st'.vertices =
                idxOfK (recordKey data r 0) (stepRecord data r st).vertices :=
              idxOfK_of_pre hp' hsm0
            have hv1 : idxOfK (recordKey data r 1) st'.vertices =
                idxOfK (recordKey data r 1) (stepRecord data r st).vertices :=
              idxOfK_of_pre hp' hsm1
            have hv2 : idxOfK (recordKey data r 2) st'.vertices =
                idxOfK (recordKey data r 2) (stepRecord data r st).vertices :=
              idxOfK_of_pre hp' hsm2
            have hat : triAt st'.triangles (st.triangles.length + 0) =
                triAt (stepRecord data r st).triangles st.triangles.length := by
              rw [Nat.add_zero]; exact triAt_of_pre ht' hlt
            have hat2 : triAt (stepRecord data r st).triangles st.triangles.length =
                (idxOfK (recordKey data r 0) (stepRecord data r st).vertices,
                 idxOfK (recordKey data r 1) (stepRecord data r st).vertices,
                 idxOfK (recordKey data r 2) (stepRecord data r st).vertices) := by
              rw [hst]
              unfold triAt
              rw [List.getD_append_right _ _ _ _ (Nat.le_refl _), Nat.sub_self]
              rfl
            refine ⟨?_, by simpa using hm0, by simpa using hm1, by simpa using hm2⟩
            rw [hat, hat2]
            simp only [Nat.add_zero]
            rw [hv0, hv1, hv2]
        | succ m =>
            have hm : m < n := Nat.lt_of_succ_lt_succ hj
            have := hj' m hm
            have harith : (stepRecord data r st).triangles.length + m =
                st.triangles.length + (m + 1) := by
              rw [hslen]; omega
            have harith2 : r + 1 + m = r + (m + 1) := by omega
            rw [harith, harith2] at this
            exact this
      · cases he

/-- Top-level specification of the decoder on success: the vertex list is
duplicate-free, there are exactly as many triangles as declared, and
triangle `j` holds the first-occurrence indices of record `j`'s three rounded
vertex keys, in record order. -/
theorem parse_binary_stl_spec (data : List Nat) (mesh : Mesh)
    (h : parse_binary_stl data = .ok mesh) :
    mesh.vertices.Nodup ∧
    mesh.triangles.length = declaredCount data ∧
    ∀ j, j < mesh.triangles.length →
      triAt mesh.triangles j =
        (idxOfK (recordKey data j 0) mesh.vertices,
         idxOfK (recordKey data j 1) mesh.vertices,
         idxOfK (recordKey data j 2) mesh.vertices) ∧
      recordKey data j 0 ∈ mesh.vertices ∧
      recordKey data j 1 ∈ mesh.vertices ∧
      recordKey data j 2 ∈ mesh.vertices := by
  unfold parse_binary_stl at h
  split at h
  · cases hloop : parseLoop data 0 (readWord32 data 80) ⟨[], [], []⟩ with
    | error e => rw [hloop] at h; cases h
    | ok st' =>
        rw [hloop] at h
        cases h
        obtain ⟨hg, _, _, hl, hj⟩ :=
          parseLoop_ok_spec data (readWord32 data 80) 0 ⟨[], [], []⟩ st'
            ⟨rfl, List.nodup_nil⟩ hloop
        simp only [List.length_nil, Nat.zero_add] at hl
        refine ⟨hg.2, hl, ?_⟩
        intro j hjlt
        have := hj j (by rw [hl] at hjlt; exact hjlt)
        simpa using this
  · cases h

theorem parseLoop_short (data : List Nat) :
    ∀ (k r : Nat) (st : PState), data.length < 84 + 50 * r + 50 * k → 1 ≤ k →
      parseLoop data r k st = .error .shortBuffer := by
  intro k
  induction k with
  | zero => intro r st _ hk; omega
  | succ n ih =>
      intro r st hlen _
      simp only [parseLoop]
      split
      · apply ih (r + 1)
        · omega
        · omega
      · rfl

theorem parseLoop_long_ok (data : List Nat) :
    ∀ (k r : Nat) (st : PState), 84 + 50 * r + 50 * k ≤ data.length →
      ∃ st', parseLoop data r k st = .ok st' := by
  intro k
  induction k with
  | zero => intro r st _; exact ⟨st, rfl⟩
  | succ n ih =>
      intro r st hlen
      simp only [parseLoop]
      rw [if_pos (by omega)]
      exact ih (r + 1) _ (by omega)

theorem getByte_take {data : List Nat} {M i : Nat} (h : i < M) :
    getByte (data.take M) i = getByte data i := by
  unfold getByte
  by_cases hi : i < data.length
  · rw [List.getD_eq_getElem _ _ (by simp; omega), List.getD_eq_getElem _ _ hi]
    simp [List.getElem_take]
  · rw [List.getD_eq_default _ _ (by simp; omega), List.getD_eq_default _ _ (by omega)]

theorem readWord32_take {data : List Nat} {M i : Nat} (h : i + 4 ≤ M) :
    readWord32 (data.take M) i = readWord32 data i := by
  unfold readWord32
  rw [getByte_take (by omega), getByte_take (by omega), getByte_take (by omega),
    getByte_take (by omega)]

theorem recordKey_take {data : List Nat} {M r vi : Nat} (hvi : vi < 3)
    (h : 84 + 50 * r + 50 ≤ M) :
    recordKey (data.take M) r vi = recordKey data r vi := by
  unfold recordKey recordCoord
  rw [readWord32_take (by omega), readWord32_take (by omega), readWord32_take (by omega)]

theorem stepRecord_take {data : List Nat} {M r : Nat} (st : PState)
    (h : 84 + 50 * r + 50 ≤ M) :
    stepRecord (data.take M) r st = stepRecord data r st := by
  unfold stepRecord
  rw [recordKey_take (by omega) h, recordKey_take (by omega) h,
    recordKey_take (by omega) h]

theorem parseLoop_take (data : List Nat) {M : Nat} (hM : M ≤ data.length) :
    ∀ (k r : Nat) (st : PState), 84 + 50 * r + 50 * k ≤ M →
      parseLoop (data.take M) r k st = parseLoop data r k st := by
  intro k
  induction k with
  | zero => intro r st _; rfl
  | succ n ih =>
      intro r st hk
      have hlt : (data.take M).length = M := by
        rw [List.length_take]; omega
      simp only [parseLoop, hlt]
      rw [if_pos (by omega), if_pos (by omega), stepRecord_take st (by omega),
        ih (r + 1) _ (by omega)]

/-! ### Material lookup, placement and dict-merge lemmas -/

theorem lookupS_enumS_none {k : String} :
    ∀ {ks : List String} (n : Nat), k ∉ ks → lookupS k (enumS ks n) = none := by
  intro ks
  induction ks with
  | nil => intro n _; rfl
  | cons s rest ih =>
      intro n h
      have hs : s ≠ k := fun hsk => h (by simp [hsk])
      have hk : k ∉ rest := fun hk => h (List.mem_cons_of_mem _ hk)
      simp [enumS, lookupS, hs, ih (n + 1) hk]

theorem matIdxFor_of_not_mem {c : String} (h : c ∉ COLORS.map Prod.fst) :
    matIdxFor c = 0 := by
  unfold matIdxFor color_to_matidx
  rw [lookupS_enumS_none 0 h]
  rfl

theorem createModelDoc_pindex (title : String) (cbs : List (String × Mesh)) :
    (createModelDoc title cbs).objects.map XObject.pindex =
      cbs.map fun b => matIdxFor b.1 := by
  show (cbs.enum.map _).map _ = _
  rw [List.map_map]
  have : cbs.map (fun b => matIdxFor b.1) =
      (cbs.enum.map Prod.snd).map fun b => matIdxFor b.1 := by
    rw [List.enum_map_snd]
  rw [this, List.map_map]
  rfl

theorem placeLoopC_at (s : ℚ) :
    ∀ (bbs : List BBox) (cur : ℚ) (i : Nat), i < bbs.length →
      offAt (placeLoopC s cur bbs) i =
        (cur + prefixWidth s bbs i - (bbAt bbs i).xmin,
         -(bbAt bbs i).ymin, -(bbAt bbs i).zmin) := by
  intro bbs
  induction bbs with
  | nil => intro cur i h; cases h
  | cons bb rest ih =>
      intro cur i h
      cases i with
      | zero =>
          show (cur - bb.xmin, -bb.ymin, -bb.zmin) = _
          simp [prefixWidth, bbAt, List.getD]
      | succ j =>
          have hj : j < rest.length := Nat.lt_of_succ_lt_succ h
          have := ih (cur + bb.xlen + s) j hj
          show offAt (placeLoopC s (cur + bb.xlen + s) rest) j = _
          rw [this]
          have hbb : bbAt (bb :: rest) (j + 1) = bbAt rest j := by
            simp [bbAt, List.getD]
          rw [hbb]
          have hpw : prefixWidth s (bb :: rest) (j + 1) =
              bb.xlen + s + prefixWidth s rest j := rfl
          rw [hpw]
          ring_nf

theorem finalCursor_eq (s : ℚ) :
    ∀ (bbs : List BBox) (cur : ℚ),
      finalCursor s cur bbs = cur + prefixWidth s bbs bbs.length := by
  intro bbs
  induction bbs with
  | nil => intro cur; simp [finalCursor, prefixWidth]
  | cons bb rest ih =>
      intro cur
      show finalCursor s (cur + bb.xlen + s) rest = _
      rw [ih]
      show _ = cur + (bb.xlen + s + prefixWidth s rest rest.length)
      ring

theorem lookupS_dictInsert_self (k : String) (v : String) :
    ∀ (d : List (String × String)), lookupS k (dictInsert d k v) = some v := by
  intro d
  induction d with
  | nil => simp [dictInsert, lookupS]
  | cons kv rest ih =>
      by_cases hk : kv.1 = k
      · simp [dictInsert, hk, lookupS]
      · simp [dictInsert, hk, lookupS, ih]

theorem lookupS_dictInsert_other {k k' : String} (hne : k' ≠ k) (v : String) :
    ∀ (d : List (String × String)), lookupS k (dictInsert d k' v) = lookupS k d := by
  intro d
  induction d with
  | nil => simp [dictInsert, lookupS, hne]
  | cons kv rest ih =>
      by_cases hk : kv.1 = k'
      · simp [dictInsert, hk, lookupS, hne]
      · simp [dictInsert, hk, lookupS, ih]

theorem keys_dictInsert (k : String) (v : String) :
    ∀ (d : List (String × String)),
      (dictInsert d k v).map Prod.fst =
        if k ∈ d.map Prod.fst then d.map Prod.fst else d.map Prod.fst ++ [k] := by
  intro d
  induction d with
  | nil => simp [dictInsert]
  | cons kv rest ih =>
      by_cases hk : kv.1 = k
      · simp [dictInsert, hk]
      · have hkk : k ≠ kv.1 := fun h => hk h.symm
        by_cases hm : k ∈ rest.map Prod.fst
        · simp [dictInsert, hk, ih, hm, hkk]
        · simp [dictInsert, hk, ih, hm, hkk]

theorem keys_dictInsert_pre (k : String) (v : String) (d : List (String × String)) :
    d.map Prod.fst <+: (dictInsert d k v).map Prod.fst := by
  rw [keys_dictInsert]
  split
  · exact List.prefix_refl _
  · exact ⟨[k], rfl⟩

theorem keys_dictUpdate_pre :
    ∀ (o d : List (String × String)),
      d.map Prod.fst <+: (dictUpdate d o).map Prod.fst := by
  intro o
  induction o with
  | nil => intro d; exact List.prefix_refl _
  | cons kv rest ih =>
      intro d
      exact (keys_dictInsert_pre kv.1 kv.2 d).trans (ih (dictInsert d kv.1 kv.2))

theorem lookupS_dictUpdate_not_mem :
    ∀ (o d : List (String × String)) (k : String), k ∉ o.map Prod.fst →
      lookupS k (dictUpdate d o) = lookupS k d := by
  intro o
  induction o with
  | nil => intro d k _; rfl
  | cons kv rest ih =>
      intro d k h
      have h1 : kv.1 ≠ k := fun hk => h (by simp [hk])
      have h2 : k ∉ rest.map Prod.fst := fun hk => h (by simp [hk])
      show lookupS k (dictUpdate (dictInsert d kv.1 kv.2) rest) = _
      rw [ih _ k h2, lookupS_dictInsert_other h1]

theorem lookupS_dictUpdate_override :
    ∀ (o d : List (String × String)) (k v : String),
      lookupS k o = some v → (o.map Prod.fst).Nodup →
      lookupS k (dictUpdate d o) = some v := by
  intro o
  induction o with
  | nil => intro d k v h _; cases h
  | cons kv rest ih =>
      intro d k v h hnd
      have hnd2 : (kv.1 :: rest.map Prod.fst).Nodup := by simpa using hnd
      have hnm : kv.1 ∉ rest.map Prod.fst := (List.nodup_cons.mp hnd2).1
      have hnd' : (rest.map Prod.fst).Nodup := (List.nodup_cons.mp hnd2).2
      by_cases hk : kv.1 = k
      · have hv : v = kv.2 := by
          rw [show lookupS k (kv :: rest) = some kv.2 by simp [lookupS, hk]] at h
          exact (Option.some_injective _ h).symm
        subst hv
        subst hk
        show lookupS kv.1 (dictUpdate (dictInsert d kv.1 kv.2) rest) = _
        rw [lookupS_dictUpdate_not_mem rest _ kv.1 hnm, lookupS_dictInsert_self]
      · have h' : lookupS k rest = some v := by
          simpa [lookupS, hk] using h
        exact ih _ k v h' hnd'

theorem keys_dictUpdate_mem :
    ∀ (o d : List (String × String)) (k : String),
      k ∈ (dictUpdate d o).map Prod.fst →
      k ∈ d.map Prod.fst ∨ k ∈ o.map Prod.fst := by
  intro o
  induction o with
  | nil => intro d k h; exact .inl h
  | cons kv rest ih =>
      intro d k h
      rcases ih (dictInsert d kv.1 kv.2) k h with h' | h'
      · rw [keys_dictInsert] at h'
        split at h'
        · exact .inl h'
        · rcases List.mem_append.mp h' with h'' | h''
          · exact .inl h''
          · simp at h''
            exact .inr (by simp [h''])
      · exact .inr (by simp [h'])

theorem keys_mergeSettings_pre :
    ∀ (os : List (List (String × String))) (d : List (String × String)),
      d.map Prod.fst <+: (mergeSettings d os).map Prod.fst := by
  intro os
  induction os with
  | nil => intro d; exact List.prefix_refl _
  | cons o rest ih =>
      intro d
      exact (keys_dictUpdate_pre o d).trans (ih (dictUpdate d o))

theorem keys_mergeSettings_mem :
    ∀ (os : List (List (String × String))) (d : List (String × String)) (k : String),
      k ∈ (mergeSettings d os).map Prod.fst →
      k ∈ d.map Prod.fst ∨ ∃ o ∈ os, k ∈ o.map Prod.fst := by
  intro os
  induction os with
  | nil => intro d k h; exact .inl h
  | cons o rest ih =>
      intro d k h
      rcases ih (dictUpdate d o) k h with h' | ⟨o', ho', hk⟩
      · rcases keys_dictUpdate_mem o d k h' with h'' | h''
        · exact .inl h''
        · exact .inr ⟨o, by simp, h''⟩
      · exact .inr ⟨o', by simp [ho'], hk⟩

/-! ### The claims -/

/-- C1: for every well-formed binary STL buffer (one the decoder accepts),
the decoded vertex list contains no two equal rounded-coordinate entries,
every index appearing in any triangle is below the vertex-list length, and
any two source-record vertices with equal rounded coordinates are mapped to
the same vertex-list index. -/
theorem stl_decode_dedup_invariants (data : List Nat) (mesh : Mesh)
    (h : parse_binary_stl data = .ok mesh) :
    mesh.vertices.Nodup ∧
    (∀ i, i < mesh.triangles.length → ∀ vi, vi < 3 →
      triIdx (triAt mesh.triangles i) vi < mesh.vertices.length) ∧
    (∀ i j vi vj, i < mesh.triangles.length → j < mesh.triangles.length →
      vi < 3 → vj < 3 → recordKey data i vi = recordKey data j vj →
      triIdx (triAt mesh.triangles i) vi = triIdx (triAt mesh.triangles j) vj) := by
  obtain ⟨hnd, hlen, hspec⟩ := parse_binary_stl_spec data mesh h
  refine ⟨hnd, ?_, ?_⟩
  · intro i hi vi hvi
    obtain ⟨heq, hm0, hm1, hm2⟩ := hspec i hi
    rw [heq]
    have hv : vi = 0 ∨ vi = 1 ∨ vi = 2 := by omega
    rcases hv with rfl | rfl | rfl
    · simpa [triIdx] using idxOfK_lt hm0
    · simpa [triIdx] using idxOfK_lt hm1
    · simpa [triIdx] using idxOfK_lt hm2
  · intro i j vi vj hi hj hvi hvj hkey
    obtain ⟨heqi, _, _, _⟩ := hspec i hi
    obtain ⟨heqj, _, _, _⟩ := hspec j hj
    rw [heqi, heqj]
    have hv : vi = 0 ∨ vi = 1 ∨ vi = 2 := by omega
    have hw : vj = 0 ∨ vj = 1 ∨ vj = 2 := by omega
    rcases hv with rfl | rfl | rfl <;> rcases hw with rfl | rfl | rfl <;>
      simp [triIdx, hkey]

/-- Witness for C1 at `demoStl`, a buffer with deliberately repeated
coordinates: record 0's second vertex and record 1's first vertex share
their rounded coordinates and get the same index. -/
theorem stl_decode_dedup_invariants_witness :
    parse_binary_stl demoStl = .ok demoMesh ∧
    demoMesh.vertices.Nodup ∧
    triIdx (triAt demoMesh.triangles 0) 0 < demoMesh.vertices.length ∧
    triIdx (triAt demoMesh.triangles 0) 1 = triIdx (triAt demoMesh.triangles 1) 0 :=
  ⟨by decide,
   (stl_decode_dedup_invariants demoStl demoMesh (by decide)).1,
   (stl_decode_dedup_invariants demoStl demoMesh (by decide)).2.1 0 (by decide)
     0 (by decide),
   (stl_decode_dedup_invariants demoStl demoMesh (by decide)).2.2 0 1 1 0
     (by decide) (by decide) (by decide) (by decide) (by decide)⟩

/-- C8: for every buffer the decoder accepts, output triangle `r` lists the
deduplicated indices of record `r`'s first, second and third vertex in
exactly that order — the winding order is never changed. -/
theorem stl_decode_preserves_record_order (data : List Nat) (mesh : Mesh)
    (h : parse_binary_stl data = .ok mesh) :
    ∀ r, r < mesh.triangles.length →
      triAt mesh.triangles r =
        (idxOfK (recordKey data r 0) mesh.vertices,
         idxOfK (recordKey data r 1) mesh.vertices,
         idxOfK (recordKey data r 2) mesh.vertices) := by
  intro r hr
  exact ((parse_binary_stl_spec data mesh h).2.2 r hr).1

/-- Witness for C8 at `demoStl`, record 1. -/
theorem stl_decode_preserves_record_order_witness :
    parse_binary_stl demoStl = .ok demoMesh ∧
    triAt demoMesh.triangles 1 =
      (idxOfK (recordKey demoStl 1 0) demoMesh.vertices,
       idxOfK (recordKey demoStl 1 1) demoMesh.vertices,
       idxOfK (recordKey demoStl 1 2) demoMesh.vertices) :=
  ⟨by decide,
   stl_decode_preserves_record_order demoStl demoMesh (by decide) 1 (by decide)⟩

/-- C4: a buffer shorter than `84 + 50 * n` bytes, where `n` is the declared
triangle count (or shorter than the 84-byte header-plus-count itself, in
which case the count field read through the guard is the one the decoder
would see), makes the decoder fail hard; and on success the decoder always
returns exactly the declared number of triangles — no silent truncation. -/
theorem stl_short_buffer_errors (data : List Nat)
    (h : data.length < 84 + 50 * declaredCount data) :
    parse_binary_stl data = .error .shortBuffer ∧
    ∀ (d : List Nat) (m : Mesh), parse_binary_stl d = .ok m →
      m.triangles.length = declaredCount d := by
  constructor
  · unfold parse_binary_stl
    by_cases hlen : 80 + 4 ≤ data.length
    · rw [if_pos hlen]
      have h' : data.length < 84 + 50 * readWord32 data 80 := by
        unfold declaredCount at h; omega
      have hn : 1 ≤ readWord32 data 80 := by omega
      rw [parseLoop_short data (readWord32 data 80) 0 ⟨[], [], []⟩ (by omega) hn]
      rfl
    · rw [if_neg hlen]
  · intro d m hm
    exact (parse_binary_stl_spec d m hm).2.1

/-- Witness for C4: the first 100 bytes of `demoStl` still declare 2
triangles but cannot hold them. -/
theorem stl_short_buffer_errors_witness :
    (demoStl.take 100).length < 84 + 50 * declaredCount (demoStl.take 100) ∧
    parse_binary_stl (demoStl.take 100) = .error .shortBuffer :=
  ⟨by decide, (stl_short_buffer_errors (demoStl.take 100) (by decide)).1⟩

/-- C10: the decoder's result depends only on the first `84 + 50 * n` bytes:
a buffer at least that long decodes successfully, to the same mesh as its
`84 + 50 * n`-byte initial segment, with exactly `n` triangles. -/
theorem stl_result_depends_on_declared_bytes (data : List Nat)
    (h : 84 + 50 * declaredCount data ≤ data.length) :
    ∃ mesh, parse_binary_stl data = .ok mesh ∧
      parse_binary_stl (data.take (84 + 50 * declaredCount data)) = .ok mesh ∧
      mesh.triangles.length = declaredCount data := by
  have h' : 84 + 50 * readWord32 data 80 ≤ data.length := by
    unfold declaredCount at h; omega
  have h84 : 80 + 4 ≤ data.length := by omega
  obtain ⟨st', hloop⟩ :=
    parseLoop_long_ok data (readWord32 data 80) 0 ⟨[], [], []⟩ (by omega)
  have hparse : parse_binary_stl data = .ok ⟨st'.vertices, st'.triangles⟩ := by
    unfold parse_binary_stl
    rw [if_pos h84, hloop]
    rfl
  refine ⟨⟨st'.vertices, st'.triangles⟩, hparse, ?_, ?_⟩
  · have htlen : (data.take (84 + 50 * declaredCount data)).length =
        84 + 50 * declaredCount data := by
      rw [List.length_take]; omega
    have hM : 84 + 50 * declaredCount data = 84 + 50 * readWord32 data 80 := rfl
    unfold parse_binary_stl
    rw [if_pos (by rw [htlen]; omega)]
    rw [show readWord32 (data.take (84 + 50 * declaredCount data)) 80 =
          readWord32 data 80 from readWord32_take (by rw [hM]; omega)]
    rw [parseLoop_take data (by rw [hM]; exact h') (readWord32 data 80) 0
      ⟨[], [], []⟩ (by rw [hM])]
    rw [hloop]
    rfl
  · exact (parse_binary_stl_spec data ⟨st'.vertices, st'.triangles⟩ hparse).2.1

/-- Witness for C10: `demoStl` with three trailing junk bytes decodes to the
same mesh as its 184-byte initial segment. -/
theorem stl_result_depends_on_declared_bytes_witness :
    84 + 50 * declaredCount (demoStl ++ [7, 7, 7]) ≤ (demoStl ++ [7, 7, 7]).length ∧
    ∃ mesh, parse_binary_stl (demoStl ++ [7, 7, 7]) = .ok mesh ∧
      parse_binary_stl ((demoStl ++ [7, 7, 7]).take
        (84 + 50 * declaredCount (demoStl ++ [7, 7, 7]))) = .ok mesh ∧
      mesh.triangles.length = declaredCount (demoStl ++ [7, 7, 7]) :=
  ⟨by decide, stl_result_depends_on_declared_bytes (demoStl ++ [7, 7, 7]) (by decide)⟩

/-- C2 counterexample: in `create_3mf` a tag absent from `COLORS` (here
`"purple"` against the red/yellow/black/clear/asagf palette) does not fail:
`color_to_matidx.get(color_name, 0)` silently resolves it to material
index 0, and the object is emitted with `pindex = 0`.  No
`UnknownMaterialError` exists anywhere in the code. -/
theorem create_3mf_unknown_tag_counterexample :
    "purple" ∉ COLORS.map Prod.fst ∧
    matIdxFor "purple" = 0 ∧
    (createModelDoc "Part" [("purple", demoMesh)]).objects.map XObject.pindex =
      [0] := by
  refine ⟨by decide, by decide, by decide⟩

/-- C2 (amended): in the multi-color package path, a tag that is not a key
of the `COLORS` palette silently resolves to material index 0 — the same
zero-index fallback as the STEP-combination path — and every object's
`pindex` is exactly this lookup applied to its tag. -/
theorem create_3mf_unknown_tag_resolves_to_zero (c : String)
    (hc : c ∉ COLORS.map Prod.fst) :
    matIdxFor c = 0 ∧
    ∀ (title : String) (cbs : List (String × Mesh)),
      (createModelDoc title cbs).objects.map XObject.pindex =
        cbs.map fun b => matIdxFor b.1 :=
  ⟨matIdxFor_of_not_mem hc, fun title cbs => createModelDoc_pindex title cbs⟩

/-- Witness for amended C2 at tag `"purple"`. -/
theorem create_3mf_unknown_tag_resolves_to_zero_witness :
    "purple" ∉ COLORS.map Prod.fst ∧ matIdxFor "purple" = 0 :=
  ⟨by decide, (create_3mf_unknown_tag_resolves_to_zero "purple" (by decide)).1⟩

/-- C3 counterexample: a package containing an object whose mesh has zero
vertices serializes without any error: all five archive members are
written (directly at the destination path — `create_3mf` opens
`zipfile.ZipFile(filepath, 'w')`, no temporary file), and the model
document contains the empty-mesh object.  No `SerializationError` exists
anywhere in the code. -/
theorem create_3mf_empty_mesh_counterexample :
    (create_3mf_pkg "Part" [("red", emptyMesh)] []).map Prod.fst =
      ["[Content_Types].xml", "_rels/.rels", "3D/3dmodel.model",
       "Metadata/project_settings.config", "Metadata/plate_1.config"] ∧
    lookupS "3D/3dmodel.model" (create_3mf_pkg "Part" [("red", emptyMesh)] []) =
      some (.model (createModelDoc "Part" [("red", emptyMesh)])) ∧
    (createModelDoc "Part" [("red", emptyMesh)]).objects =
      [⟨2, 0, [], []⟩] := by
  refine ⟨by decide, by decide, by decide⟩

/-- C3 (amended): serialization never fails: for every package-object list
(zero-vertex meshes included) `create_3mf` writes the complete five-member
archive directly at the destination path, with one model object per input
body. -/
theorem create_3mf_always_writes_archive (title : String)
    (cbs : List (String × Mesh)) (settings : List (String × String)) :
    (create_3mf_pkg title cbs settings).map Prod.fst =
      ["[Content_Types].xml", "_rels/.rels", "3D/3dmodel.model",
       "Metadata/project_settings.config", "Metadata/plate_1.config"] ∧
    lookupS "3D/3dmodel.model" (create_3mf_pkg title cbs settings) =
      some (.model (createModelDoc title cbs)) ∧
    (createModelDoc title cbs).objects.length = cbs.length := by
  refine ⟨rfl, rfl, ?_⟩
  show (cbs.enum.map _).length = _
  rw [List.length_map, List.enum_length]

/-- C7: serializing the same package-object list twice yields identical
model content, and the model's element order equals insertion order: object
`i` carries id `i + 2` with its mesh data unchanged, and the build items
reference the objects in the same order. -/
theorem create_3mf_deterministic_ordered (title : String)
    (cbs : List (String × Mesh)) (settings : List (String × String)) :
    create_3mf_pkg title cbs settings = create_3mf_pkg title cbs settings ∧
    (createModelDoc title cbs).objects.map
        (fun o => (o.objId, o.vertices, o.triangles)) =
      cbs.enum.map (fun p => (p.1 + 2, p.2.2.vertices, p.2.2.triangles)) ∧
    (createModelDoc title cbs).buildItems = cbs.enum.map fun p => p.1 + 2 := by
  refine ⟨rfl, ?_, ?_⟩
  · show (cbs.enum.map _).map _ = _
    rw [List.map_map]
    rfl
  · show (cbs.enum.map _).map _ = _
    rw [List.map_map]
    rfl

/-- C5: object `i` is translated so its bounding-box minimum x lands on the
running cursor (the sum of the previous extents plus spacings), its minima
in y and z land on 0, and the final cursor is the total of all extents plus
one spacing per object; for extents 10, 20, 30 with spacing 5 the start
positions are 0, 15, 40 and the total width (final cursor minus one
spacing) is 70. -/
theorem side_by_side_placement_cursor :
    (∀ (s : ℚ) (bbs : List BBox) (i : Nat), i < bbs.length →
      (bbAt bbs i).xmin + (offAt (placeLoopC s 0 bbs) i).1 = prefixWidth s bbs i ∧
      (bbAt bbs i).ymin + (offAt (placeLoopC s 0 bbs) i).2.1 = 0 ∧
      (bbAt bbs i).zmin + (offAt (placeLoopC s 0 bbs) i).2.2 = 0) ∧
    (∀ (s : ℚ) (bbs : List BBox),
      finalCursor s 0 bbs = prefixWidth s bbs bbs.length) ∧
    (prefixWidth 5 demoBoxes 0 = 0 ∧ prefixWidth 5 demoBoxes 1 = 15 ∧
     prefixWidth 5 demoBoxes 2 = 40 ∧ finalCursor 5 0 demoBoxes - 5 = 70) := by
  refine ⟨?_, ?_, ?_, ?_, ?_, ?_⟩
  · intro s bbs i hi
    rw [placeLoopC_at s bbs 0 i hi]
    refine ⟨by ring, by ring, by ring⟩
  · intro s bbs
    rw [finalCursor_eq, zero_add]
  · norm_num [prefixWidth, demoBoxes]
  · norm_num [prefixWidth, demoBoxes]
  · norm_num [prefixWidth, demoBoxes]
  · norm_num [finalCursor, demoBoxes]

/-- Witness for C5 at the middle demo box: its translated minimum x is the
cursor position 15. -/
theorem side_by_side_placement_cursor_witness :
    1 < demoBoxes.length ∧
    (bbAt demoBoxes 1).xmin + (offAt (placeLoopC 5 0 demoBoxes) 1).1 =
      prefixWidth 5 demoBoxes 1 :=
  ⟨by norm_num [demoBoxes],
   (side_by_side_placement_cursor.1 5 demoBoxes 1 (by norm_num [demoBoxes])).1⟩

/-- C9: the plate-width check is advisory: the warning is emitted exactly
when the combined width exceeds 270 mm, and the complete five-member
archive is written regardless; concretely, extents 100 + 100 + 80 with
10 mm spacing total 300 mm, warn, and still produce the full package. -/
theorem plate_overflow_warns_nonfatal (entries : List (String × BBox × Mesh))
    (s : ℚ) (t : String) :
    ((steps_to_combined_3mf entries s t).overflowWarning = true ↔
      270 < (steps_to_combined_3mf entries s t).totalWidth) ∧
    (steps_to_combined_3mf entries s t).archive.map Prod.fst =
      ["[Content_Types].xml", "_rels/.rels", "3D/3dmodel.model",
       "Metadata/project_settings.config", "Metadata/plate_1.config"] ∧
    lookupS "3D/3dmodel.model" (steps_to_combined_3mf entries s t).archive =
      some (.model (steps_to_combined_3mf entries s t).doc) ∧
    (steps_to_combined_3mf entries s t).doc.objects.length = entries.length ∧
    (steps_to_combined_3mf overflowEntries 10 "XY").totalWidth = 300 ∧
    (steps_to_combined_3mf overflowEntries 10 "XY").overflowWarning = true ∧
    (steps_to_combined_3mf overflowEntries 10 "XY").archive.map Prod.fst =
      ["[Content_Types].xml", "_rels/.rels", "3D/3dmodel.model",
       "Metadata/project_settings.config", "Metadata/plate_1.config"] := by
  refine ⟨?_, rfl, rfl, ?_, ?_, ?_, rfl⟩
  · show decide _ = true ↔ _
    exact decide_eq_true_iff
  · show (entries.enum.map _).length = _
    rw [List.length_map, List.enum_length]
  · show finalCursor 10 0 _ - 10 = 300
    norm_num [overflowEntries, finalCursor]
  · show decide _ = true
    rw [decide_eq_true_iff]
    show (270 : ℚ) < finalCursor 10 0 _ - 10
    norm_num [overflowEntries, finalCursor]

/-- C6: the settings merge is Python `dict.update`: an overridden key's
value is replaced whole, every baseline key keeps its original insertion
position (the baseline keys form an initial segment of the merged key
list, in order), keys introduced only by overrides are appended after all
baseline keys, and the worked example merges as specified. -/
theorem settings_merge_whole_value_ordered :
    mergeSettings [("a", "1"), ("b", "2")] [[("b", "9"), ("c", "7")]] =
      [("a", "1"), ("b", "9"), ("c", "7")] ∧
    (∀ (d : List (String × String)) (os : List (List (String × String))),
      d.map Prod.fst <+: (mergeSettings d os).map Prod.fst) ∧
    (∀ (d o : List (String × String)) (k v : String),
      lookupS k o = some v → (o.map Prod.fst).Nodup →
      lookupS k (dictUpdate d o) = some v) ∧
    (∀ (d : List (String × String)) (os : List (List (String × String)))
        (k : String), k ∈ (mergeSettings d os).map Prod.fst →
      k ∈ d.map Prod.fst ∨ ∃ o ∈ os, k ∈ o.map Prod.fst) := by
  refine ⟨by decide, ?_, ?_, ?_⟩
  · intro d os
    exact keys_mergeSettings_pre os d
  · intro d o k v h hnd
    exact lookupS_dictUpdate_override o d k v h hnd
  · intro d os k h
    exact keys_mergeSettings_mem os d k h

/-- Witness for C6: the override's value for `"b"` replaces the baseline's
whole value in the worked example. -/
theorem settings_merge_whole_value_ordered_witness :
    lookupS "b" [("b", "9"), ("c", "7")] = some "9" ∧
    lookupS "b" (dictUpdate [("a", "1"), ("b", "2")] [("b", "9"), ("c", "7")]) =
      some "9" :=
  ⟨by decide,
   settings_merge_whole_value_ordered.2.2.1 [("a", "1"), ("b", "2")]
     [("b", "9"), ("c", "7")] "b" "9" (by decide) (by decide)⟩

end DragonJewelryBox
